import Mathlib

/-!
Verification of the promptdb ingestion pipeline (`promptdb/import_prompts.py`)
and query service (`promptdb/server.py`) against their specification.

The Python source is shallowly embedded as executable Lean definitions.
Modelling conventions, fixed once here:

* Strings are Lean `String`s; character-level work happens on `List Char`
  (`String.data`).  Python `str.strip()` and the regex class `\s` are modelled
  over the ASCII whitespace set (space, tab, newline, carriage return,
  vertical tab, form feed); all inputs appearing in this development are ASCII.
* `str.splitlines()` is modelled for `\n`-separated text (the only line
  terminator occurring in the modelled data).
* Python `pathlib` name surgery (`Path.stem`, `Path.suffix`) follows CPython:
  the last `.` at an index `i` with `0 < i < len - 1` splits the name.
* The SQLite layer: the repository's `schema.sql` is not part of the source
  under verification; where its content decides behaviour the definitions are
  modelled from the spec and say so in their doc comments.
-/

/-! ## Python string primitives -/

/-- ASCII model of Python whitespace (`str.strip()` / regex `\s`). -/
def isPySpace (c : Char) : Bool :=
  c = ' ' || c = '\t' || c = '\n' || c = '\r' || c = '\x0b' || c = '\x0c'

/-- Remove trailing characters satisfying `p` (right half of `str.strip`). -/
def dropTrailing (p : Char → Bool) (l : List Char) : List Char :=
  (l.reverse.dropWhile p).reverse

/-- Python `str.strip(chars)` over a character predicate. -/
def stripOn (p : Char → Bool) (l : List Char) : List Char :=
  dropTrailing p (l.dropWhile p)

/-- Python `str.strip()` on a character list. -/
def pyStripL (l : List Char) : List Char := stripOn isPySpace l

/-- Python `str.strip()`. -/
def pyStrip (s : String) : String := String.mk (pyStripL s.data)

/-- Python `str.strip("`*")`, as used on inferred markdown headings. -/
def isTickStar (c : Char) : Bool := c = '`' || c = '*'

/-- Python `str.strip("\n")`, as used on fenced-block bodies. -/
def isNl (c : Char) : Bool := c = '\n'

/-- Python `str.splitlines()` for `\n`-terminated text: accumulate the current
line and emit it at each newline; a trailing newline does not produce an
extra empty line. -/
def pySplitAux : List Char → List Char → List (List Char)
  | [], acc => if acc.isEmpty then [] else [acc.reverse]
  | '\n' :: rest, acc => acc.reverse :: pySplitAux rest []
  | c :: rest, acc => pySplitAux rest (c :: acc)

/-- Python `str.splitlines()` (newline-only model). -/
def pySplitlinesL (l : List Char) : List (List Char) := pySplitAux l []

/-! ### Lemmas about stripping -/

theorem dropWhile_dropWhile (p : Char → Bool) (l : List Char) :
    (l.dropWhile p).dropWhile p = l.dropWhile p := by
  induction l with
  | nil => rfl
  | cons a l ih =>
    by_cases h : p a
    · simp [List.dropWhile_cons, h, ih]
    · simp [List.dropWhile_cons, h]

theorem dropWhile_head_false (p : Char → Bool) (l : List Char) :
    ∀ a m, l.dropWhile p = a :: m → p a = false := by
  induction l with
  | nil => intro a m h; simp [List.dropWhile] at h
  | cons b l ih =>
    intro a m h
    by_cases hb : p b
    · rw [List.dropWhile_cons_of_pos hb] at h
      exact ih a m h
    · rw [List.dropWhile_cons_of_neg hb] at h
      cases h
      simpa using hb

theorem dropWhile_is_suffix (p : Char → Bool) (l : List Char) :
    ∃ s, s ++ l.dropWhile p = l := by
  induction l with
  | nil => exact ⟨[], rfl⟩
  | cons a l ih =>
    by_cases h : p a
    · obtain ⟨s, hs⟩ := ih
      exact ⟨a :: s, by simp [List.dropWhile_cons, h, hs]⟩
    · exact ⟨[], by simp [List.dropWhile_cons, h]⟩

theorem dropTrailing_is_prefix (p : Char → Bool) (l : List Char) :
    ∃ t, dropTrailing p l ++ t = l := by
  obtain ⟨s, hs⟩ := dropWhile_is_suffix p l.reverse
  refine ⟨s.reverse, ?_⟩
  have := congrArg List.reverse hs
  simpa [dropTrailing] using this

theorem dropTrailing_idem (p : Char → Bool) (l : List Char) :
    dropTrailing p (dropTrailing p l) = dropTrailing p l := by
  simp [dropTrailing, dropWhile_dropWhile]

/-- A list whose head does not satisfy `p` is unchanged by `dropWhile p`,
and the same holds after trailing characters are removed. -/
theorem dropWhile_dropTrailing_comm (p : Char → Bool) (l : List Char)
    (h : l.dropWhile p = l) : (dropTrailing p l).dropWhile p = dropTrailing p l := by
  obtain ⟨t, ht⟩ := dropTrailing_is_prefix p l
  cases hd : dropTrailing p l with
  | nil => simp
  | cons b u =>
    rw [hd] at ht
    have hb : p b = false := by
      have hl : l.dropWhile p = b :: (u ++ t) := by
        rw [h, ← ht]; simp
      exact dropWhile_head_false p l _ _ hl
    simp [List.dropWhile_cons, hb]

theorem stripOn_idem (p : Char → Bool) (l : List Char) :
    stripOn p (stripOn p l) = stripOn p l := by
  unfold stripOn
  have h1 : (l.dropWhile p).dropWhile p = l.dropWhile p := dropWhile_dropWhile p l
  have h2 := dropWhile_dropTrailing_comm p (l.dropWhile p) h1
  rw [h2, dropTrailing_idem]

theorem pyStripL_idem (l : List Char) : pyStripL (pyStripL l) = pyStripL l :=
  stripOn_idem isPySpace l

theorem pyStrip_idem (s : String) : pyStrip (pyStrip s) = pyStrip s := by
  show String.mk (pyStripL (String.mk (pyStripL s.data)).data) = _
  rw [show (String.mk (pyStripL s.data)).data = pyStripL s.data from rfl, pyStripL_idem]
  rfl

theorem pyStrip_mk_stripped (l : List Char) :
    pyStrip (String.mk (pyStripL l)) = String.mk (pyStripL l) := by
  show String.mk (pyStripL (String.mk (pyStripL l)).data) = _
  rw [show (String.mk (pyStripL l)).data = pyStripL l from rfl, pyStripL_idem]

/-! ## CPython `pathlib` name surgery -/

/-- Index of the last `.` in a name (`str.rfind('.')`), `none` when absent. -/
def rfindDot (l : List Char) : Option Nat :=
  ((List.range l.length).filter (fun i => l.getD i ' ' = '.')).getLast?

/-- CPython `PurePath.suffix`: the part from the last dot, provided that dot
is neither the first nor the last character of the name. -/
def pySuffix (l : List Char) : List Char :=
  match rfindDot l with
  | some i => if 0 < i ∧ i < l.length - 1 then l.drop i else []
  | none => []

/-- CPython `PurePath.stem`: the name with `pySuffix` removed. -/
def pyStem (l : List Char) : List Char :=
  match rfindDot l with
  | some i => if 0 < i ∧ i < l.length - 1 then l.take i else l
  | none => l

theorem pyStem_ne_nil (l : List Char) (h : l ≠ []) : pyStem l ≠ [] := by
  unfold pyStem
  cases hf : rfindDot l with
  | none => simpa using h
  | some i =>
    by_cases hi : 0 < i ∧ i < l.length - 1
    · simp only [hi, if_true]
      intro hc
      rcases List.take_eq_nil_iff.mp hc with h1 | h2
      · omega
      · exact h h2
    · simpa [hi] using h

/-! ## Python `int(str)` -/

/-- Digits of a Python integer literal: non-empty, single underscores allowed
only between digits. Returns the value. -/
def digitsVal (acc : Nat) : List Char → Option Nat
  | [] => some acc
  | '_' :: c :: rest =>
    if c.isDigit then digitsVal (acc * 10 + (c.toNat - 48)) rest else none
  | c :: rest =>
    if c.isDigit then digitsVal (acc * 10 + (c.toNat - 48)) rest else none

/-- Python `int(value)` on a string: surrounding whitespace stripped, optional
sign, then a digit sequence (with `_` separators); `none` models `ValueError`. -/
def pyParseInt (s : String) : Option Int :=
  let core : List Char → Option Int := fun l =>
    match l with
    | c :: rest =>
      if c.isDigit then (digitsVal 0 (c :: rest)).map Int.ofNat else none
    | [] => none
  match pyStripL s.data with
  | '+' :: rest => core rest
  | '-' :: rest => (core rest).map (fun n => -n)
  | l => core l

/-! ## Markdown heading inference (`infer_title_from_markdown`) -/

/-- Matching of the stripped candidate line against the heading regex
`^\s{0,3}#{1,6}\s+(.+?)\s*$` followed by `.strip().strip("`*")`.  The line
has already been stripped by the caller, so the leading `\s{0,3}` and the
trailing `\s*$` are vacuous; the regex then matches exactly when the line
starts with one to six `#` (a seventh `#` kills every backtracking split)
followed by at least one whitespace character and then further text. -/
def headingOf (l : List Char) : Option (List Char) :=
  let k := (l.takeWhile (· = '#')).length
  if k = 0 ∨ 6 < k then none
  else
    match l.drop k with
    | [] => none
    | c :: rest =>
      if isPySpace c then
        let g := (c :: rest).dropWhile isPySpace
        if g.isEmpty then none else some (stripOn isTickStar (pyStripL g))
      else none

/-- The loop of `infer_title_from_markdown`: walk the lines, skip blank ones, and decide
on the first non-blank line only (the loop `break`s after it). -/
def inferTitleGo : List (List Char) → Option String
  | [] => none
  | ln :: ls =>
    let s := pyStripL ln
    if s.isEmpty then inferTitleGo ls
    else (headingOf s).map String.mk

/-- Definition `infer_title_from_markdown` from `import_prompts.py`. -/
def infer_title_from_markdown (text : String) : Option String :=
  inferTitleGo (pySplitlinesL text.data)

/-- Spec-side reformulation for C5: the first non-blank (after stripping)
line of the text, if any. -/
def firstNonBlankLine (text : String) : Option (List Char) :=
  ((pySplitlinesL text.data).map pyStripL).find? (fun l => !l.isEmpty)

theorem infer_title_eq_first_nonblank (text : String) :
    infer_title_from_markdown text =
      (firstNonBlankLine text).bind (fun l => (headingOf l).map String.mk) := by
  unfold infer_title_from_markdown firstNonBlankLine
  induction pySplitlinesL text.data with
  | nil => rfl
  | cons ln ls ih =>
    by_cases h : (pyStripL ln).isEmpty
    · simpa [inferTitleGo, h] using ih
    · simp [inferTitleGo, h]

/-! ## Fenced code blocks (`extract_best_fenced_block`)

The source scans with `re.finditer` over the DOTALL pattern
```` ```(?P<lang>[a-zA-Z0-9_-]+)?\s*\n(?P<body>.*?)\n``` ````.
The embedding reproduces the engine's behaviour: at each candidate start the
optional language tag is tried greedily (longest run first, then absent), then
`\s*` greedily, the mandatory newline is checked, and the lazy body is the
shortest stretch up to the next `"\n```"`; the first backtracking choice whose
closing fence exists wins, and scanning resumes after the match. -/

/-- Characters of the optional language tag (`[a-zA-Z0-9_-]`). -/
def isLangChar (c : Char) : Bool :=
  c.isAlpha || c.isDigit || c = '_' || c = '-'

/-- Lazy body search: first occurrence of `"\n```"`, returning the body read
so far and the remainder after the closing fence. -/
def findClose (acc : List Char) : List Char → Option (List Char × List Char)
  | [] => none
  | c :: rest =>
    if c = '\n' ∧ rest.take 3 = ['`', '`', '`']
    then some (acc.reverse, rest.drop 3)
    else findClose (c :: acc) rest

theorem findClose_len : ∀ (cs acc b rest : List Char),
    findClose acc cs = some (b, rest) → rest.length + 4 ≤ cs.length := by
  intro cs
  induction cs with
  | nil => intro acc b rest h; simp [findClose] at h
  | cons c cs ih =>
    intro acc b rest h
    by_cases hc : c = '\n' ∧ cs.take 3 = ['`', '`', '`']
    · simp only [findClose, hc, and_self, if_true, Option.some.injEq, Prod.mk.injEq] at h
      obtain ⟨_, hr⟩ := h
      subst hr
      have h3 : (cs.take 3).length = 3 := by rw [hc.2]; rfl
      simp [List.length_take] at h3
      simp [List.length_drop]
      omega
    · simp only [findClose, hc, if_false] at h
      have := ih (c :: acc) b rest h
      simp
      omega

/-- Length of the maximal language-tag run after the opening fence. -/
def langRun (t3 : List Char) : Nat := (t3.takeWhile isLangChar).length

/-- Length of the maximal whitespace run at a position. -/
def wsRun (l : List Char) : Nat := (l.takeWhile isPySpace).length

/-- The cut positions `lang-length + whitespace-length` tried by the engine,
in backtracking order: language tag longest first (then absent), whitespace
greedy first. -/
def candidateCuts (t3 : List Char) : List Nat :=
  ((List.range (langRun t3 + 1)).reverse).flatMap
    (fun m => ((List.range (wsRun (t3.drop m) + 1)).reverse).map (fun s => m + s))

/-- Suffixes of the text after `\s*\n` for each viable backtracking cut. -/
def fenceSplits (t3 : List Char) : List (List Char) :=
  (candidateCuts t3).filterMap
    (fun j => if (t3.drop j).head? = some '\n' then some (t3.drop (j + 1)) else none)

theorem fenceSplits_len (t3 : List Char) (cand : List Char)
    (h : cand ∈ fenceSplits t3) : cand.length ≤ t3.length := by
  unfold fenceSplits at h
  obtain ⟨j, _, hj⟩ := List.mem_filterMap.mp h
  split at hj
  · injection hj with hj
    subst hj
    simp [List.length_drop]
  · exact absurd hj (by simp)

/-- One attempted match at the current position: requires the literal
opening fence, then the first viable backtracking split with a closing
fence.  Returns the raw regex `body` group and the rest of the input
after the match. -/
def tryFenceAt (cs : List Char) : Option (List Char × List Char) :=
  match cs with
  | '`' :: '`' :: '`' :: t3 => (fenceSplits t3).findSome? (fun cand => findClose [] cand)
  | _ => none

theorem tryFenceAt_rest_len (cs b rest : List Char)
    (h : tryFenceAt cs = some (b, rest)) : rest.length < cs.length := by
  unfold tryFenceAt at h
  split at h
  · rename_i t3
    obtain ⟨cand, hcand, hfc⟩ := List.exists_of_findSome?_eq_some h
    have h1 := findClose_len cand [] b rest hfc
    have h2 := fenceSplits_len t3 cand hcand
    simp
    omega
  · cases h

/-- Matching loop of `re.finditer` over the fence pattern, on explicit fuel so that the
recursion is structural (each step consumes at least one character, so
`l.length` fuel is never exhausted early; `tryFenceAt_rest_len` records
the strict decrease). -/
def fenceScanFuel : Nat → List Char → List (List Char)
  | 0, _ => []
  | fuel + 1, l =>
    match tryFenceAt l with
    | some (b, rest) => b :: fenceScanFuel fuel rest
    | none =>
      match l with
      | [] => []
      | _ :: cs => fenceScanFuel fuel cs

/-- Model of `re.finditer` over the fence pattern: collect the `body` groups of all
non-overlapping matches, scanning left to right. -/
def fenceScan (l : List Char) : List (List Char) := fenceScanFuel l.length l

/-- The `blocks` list of `extract_best_fenced_block`: non-empty bodies,
each stripped of leading/trailing newlines (`body.strip("\n")`). -/
def fencedBlocks (text : String) : List (List Char) :=
  (fenceScan text.data).filterMap
    (fun b => if b.isEmpty then none else some (stripOn isNl b))

/-- Python `max(blocks, key=len)`: the first block of maximal length
(`max` only replaces the current best on a strictly greater key). -/
def maxByLen (b : List Char) (bs : List (List Char)) : List Char :=
  bs.foldl (fun best x => if best.length < x.length then x else best) b

/-- Definition `extract_best_fenced_block` from `import_prompts.py`. -/
def extract_best_fenced_block (text : String) : Option String :=
  match fencedBlocks text with
  | [] => none
  | b :: bs => some (String.mk (pyStripL (maxByLen b bs)))

/-- The body rule of `load_repo_files_as_prompts` (line 187):
`fenced.strip() if fenced and len(fenced) >= 40 else text`. -/
def repoBody (text : String) : String :=
  match extract_best_fenced_block text with
  | some f => if f ≠ "" ∧ 40 ≤ f.length then pyStrip f else text
  | none => text

/-! ## SHA-256 (`sha256_text`)

`hashlib.sha256(text.encode("utf-8", errors="ignore")).hexdigest()`.
Lean strings contain no lone surrogates, so `errors="ignore"` drops nothing
and the byte input is the standard UTF-8 encoding.  Words are `Nat`s reduced
modulo `2^32`. -/

/-- Standard UTF-8 encoding of one scalar value. -/
def utf8Bytes (c : Char) : List Nat :=
  let n := c.toNat
  if n < 0x80 then [n]
  else if n < 0x800 then [0xC0 + n / 0x40, 0x80 + n % 0x40]
  else if n < 0x10000 then
    [0xE0 + n / 0x1000, 0x80 + (n / 0x40) % 0x40, 0x80 + n % 0x40]
  else
    [0xF0 + n / 0x40000, 0x80 + (n / 0x1000) % 0x40, 0x80 + (n / 0x40) % 0x40,
     0x80 + n % 0x40]

def m32 (n : Nat) : Nat := n % 4294967296

def rotr32 (n x : Nat) : Nat := (x >>> n) ||| m32 (x <<< (32 - n))

def shaCh (x y z : Nat) : Nat := (x &&& y) ^^^ ((x ^^^ 0xFFFFFFFF) &&& z)

def shaMaj (x y z : Nat) : Nat := (x &&& y) ^^^ (x &&& z) ^^^ (y &&& z)

def bigSigma0 (x : Nat) : Nat := rotr32 2 x ^^^ rotr32 13 x ^^^ rotr32 22 x

def bigSigma1 (x : Nat) : Nat := rotr32 6 x ^^^ rotr32 11 x ^^^ rotr32 25 x

def smallSigma0 (x : Nat) : Nat := rotr32 7 x ^^^ rotr32 18 x ^^^ (x >>> 3)

def smallSigma1 (x : Nat) : Nat := rotr32 17 x ^^^ rotr32 19 x ^^^ (x >>> 10)

def k256 : List Nat :=
  [1116352408, 1899447441, 3049323471, 3921009573, 961987163,
   1508970993, 2453635748, 2870763221, 3624381080, 310598401,
   607225278, 1426881987, 1925078388, 2162078206, 2614888103,
   3248222580, 3835390401, 4022224774, 264347078, 604807628,
   770255983, 1249150122, 1555081692, 1996064986, 2554220882,
   2821834349, 2952996808, 3210313671, 3336571891, 3584528711,
   113926993, 338241895, 666307205, 773529912, 1294757372,
   1396182291, 1695183700, 1986661051, 2177026350, 2456956037,
   2730485921, 2820302411, 3259730800, 3345764771, 3516065817,
   3600352804, 4094571909, 275423344, 430227734, 506948616,
   659060556, 883997877, 958139571, 1322822218, 1537002063,
   1747873779, 1955562222, 2024104815, 2227730452, 2361852424,
   2428436474, 2756734187, 3204031479, 3329325298]

def h256 : List Nat :=
  [1779033703, 3144134277, 1013904242, 2773480762,
   1359893119, 2600822924, 528734635, 1541459225]

/-- Big-endian 64-bit byte encoding of the message bit length. -/
def be64 (n : Nat) : List Nat :=
  (List.range 8).map (fun i => (n >>> (8 * (7 - i))) % 256)

/-- SHA-256 padding: `0x80`, zeros to 56 mod 64, then the bit length. -/
def shaPad (msg : List Nat) : List Nat :=
  msg ++ [0x80] ++ List.replicate ((119 - msg.length % 64) % 64) 0 ++
    be64 (8 * msg.length)

def chunks64 (l : List Nat) : List (List Nat) :=
  if l.isEmpty then [] else l.take 64 :: chunks64 (l.drop 64)
termination_by l.length
decreasing_by
  rename_i h
  simp only [List.isEmpty_iff] at h
  have hl : 0 < l.length := List.length_pos.mpr h
  simp only [List.length_drop]
  omega

/-- The sixteen 32-bit big-endian words of one 64-byte block. -/
def blockWords (block : List Nat) : Array Nat :=
  ((List.range 16).map (fun i =>
    (block.getD (4 * i) 0) <<< 24 + (block.getD (4 * i + 1) 0) <<< 16 +
    (block.getD (4 * i + 2) 0) <<< 8 + block.getD (4 * i + 3) 0)).toArray

/-- Message schedule `w[0..63]`. -/
def shaSchedule (w16 : Array Nat) : Array Nat :=
  (List.range 48).foldl
    (fun w i =>
      let j := i + 16
      w.push (m32 (smallSigma1 (w.getD (j - 2) 0) + w.getD (j - 7) 0 +
        smallSigma0 (w.getD (j - 15) 0) + w.getD (j - 16) 0)))
    w16

/-- One compression round state. -/
def shaRound (w : Array Nat) (st : Nat × Nat × Nat × Nat × Nat × Nat × Nat × Nat)
    (i : Nat) : Nat × Nat × Nat × Nat × Nat × Nat × Nat × Nat :=
  let (a, b, c, d, e, f, g, h) := st
  let t1 := m32 (h + bigSigma1 e + shaCh e f g + k256.getD i 0 + w.getD i 0)
  let t2 := m32 (bigSigma0 a + shaMaj a b c)
  (m32 (t1 + t2), a, b, c, m32 (d + t1), e, f, g)

/-- Compress one 64-byte block into the running hash state. -/
def shaCompress (hs : List Nat) (block : List Nat) : List Nat :=
  let w := shaSchedule (blockWords block)
  let init := (hs.getD 0 0, hs.getD 1 0, hs.getD 2 0, hs.getD 3 0,
               hs.getD 4 0, hs.getD 5 0, hs.getD 6 0, hs.getD 7 0)
  let (a, b, c, d, e, f, g, h) := (List.range 64).foldl (shaRound w) init
  [m32 (hs.getD 0 0 + a), m32 (hs.getD 1 0 + b), m32 (hs.getD 2 0 + c),
   m32 (hs.getD 3 0 + d), m32 (hs.getD 4 0 + e), m32 (hs.getD 5 0 + f),
   m32 (hs.getD 6 0 + g), m32 (hs.getD 7 0 + h)]

def hexNibble (n : Nat) : Char :=
  if n < 10 then Char.ofNat (48 + n) else Char.ofNat (87 + n)

/-- Lowercase hex rendering of one 32-bit word. -/
def hexWord (w : Nat) : List Char :=
  (List.range 8).map (fun i => hexNibble ((w >>> (4 * (7 - i))) % 16))

/-- Definition `sha256_text` from `import_prompts.py`. -/
def sha256_text (text : String) : String :=
  let msg := text.data.flatMap utf8Bytes
  let hs := (chunks64 (shaPad msg)).foldl shaCompress h256
  String.mk (hs.flatMap hexWord)

/-! ## Records and the deduplicating store writer -/

/-- Record `PromptRow` from `import_prompts.py` (the adapters' uniform record). -/
structure PromptRow where
  title : String
  body : String
  source : String
  source_repo : Option String
  source_path : Option String
deriving DecidableEq, Repr

/-- One persisted row of the `prompts` table. -/
structure StoredPrompt where
  id : Nat
  title : String
  body : String
  source : String
  source_repo : Option String
  source_path : Option String
  body_sha256 : String
  imported_at : String
deriving DecidableEq, Repr

/-- Modelled from the spec: `insert_prompt` from `import_prompts.py` relies
on the SQLite schema (`promptdb/schema.sql`), which is not part of the
source under verification; per the spec the schema enforces a uniqueness
constraint on `body_sha256`, so the `sqlite3.IntegrityError` branch (return
`False`, row not stored) fires exactly when a stored row already carries
the same `body_sha256`.  The store is the row list; the surrogate `id` is
the next monotone integer, as SQLite assigns. -/
def insert_prompt (db : List StoredPrompt) (pr : PromptRow) (imported_at : String) :
    Bool × List StoredPrompt :=
  let h := sha256_text pr.body
  if db.any (fun r => r.body_sha256 = h) then (false, db)
  else (true, db ++ [⟨db.length + 1, pr.title, pr.body, pr.source,
    pr.source_repo, pr.source_path, h, imported_at⟩])

/-- One ingestion run over a fixed record sequence: the `main` loop bodies
(`if insert_prompt(conn, pr, imported_at): ...`) fold `insert_prompt` over
every record the adapters produce, keeping the store. -/
def runIngest (db : List StoredPrompt) (records : List PromptRow)
    (imported_at : String) : List StoredPrompt :=
  records.foldl (fun d pr => (insert_prompt d pr imported_at).2) db

/-! ## Text acquisition (`iter_repo_text_files`) -/

/-- The allowed text extensions (`TEXT_EXTS`). -/
def TEXT_EXTS : List String :=
  [".md", ".txt", ".prompt", ".yml", ".yaml", ".json", ".toml"]

/-- The pruned directory names (`SKIP_DIR_NAMES`). -/
def SKIP_DIR_NAMES : List String :=
  [".git", "node_modules", "dist", "build", ".next", ".svelte-kit",
   ".turbo", ".vercel", "coverage"]

/-- The skipped file names (`SKIP_FILE_NAMES`). -/
def SKIP_FILE_NAMES : List String :=
  ["package-lock.json", "pnpm-lock.yaml", "yarn.lock"]

/-- Constant `MAX_FILE_BYTES = 512 * 1024`. -/
def MAX_FILE_BYTES : Nat := 512 * 1024

/-- A file as the walk sees it: its name, the `stat` result (`none` models an
`OSError` from `stat`), and the decoded text content (`read_text_file` never
fails: decode errors are replaced, so content is just a string). -/
structure FileEnt where
  name : String
  size : Option Nat
  content : String
deriving DecidableEq, Repr

mutual
/-- A directory tree: the files of this directory (in readdir order) and the
named subdirectories (in readdir order).  The subdirectory list is its own
mutual type so that the walk is structurally recursive. -/
inductive FSTree where
  | node (files : List FileEnt) (dirs : FSDirs)
/-- The named subdirectories of a directory, in readdir order. -/
inductive FSDirs where
  | nil
  | cons (name : String) (tree : FSTree) (rest : FSDirs)
end

/-- Python `path.suffix.lower()` of a file name (ASCII lowering). -/
def extOf (name : String) : String :=
  String.mk ((pySuffix name.data).map Char.toLower)

/-- The per-file filter of `iter_repo_text_files`: skip blocklisted names,
disallowed extensions, over-large files, and files whose `stat` failed. -/
def keepFile (f : FileEnt) : Bool :=
  !(SKIP_FILE_NAMES.contains f.name) && TEXT_EXTS.contains (extOf f.name) &&
    match f.size with
    | some n => !(MAX_FILE_BYTES < n)
    | none => false

mutual
/-- Definition `iter_repo_text_files` from `import_prompts.py`, as `os.walk` performs it:
the current directory's files first (filtered), then the subdirectories in
order, with blocklisted directory names pruned from traversal entirely.
Each result carries the directory components from the root. -/
def iter_repo_text_files : FSTree → List (List String × FileEnt)
  | .node files dirs =>
    (files.filter keepFile).map (fun f => ([], f)) ++ iterDirs dirs
/-- Walk the subdirectories in order, skipping the pruned names. -/
def iterDirs : FSDirs → List (List String × FileEnt)
  | .nil => []
  | .cons name t rest =>
    (if SKIP_DIR_NAMES.contains name then []
     else (iter_repo_text_files t).map (fun pf => (name :: pf.1, pf.2))) ++
      iterDirs rest
end

/-- Relative path of a walked file, forward-slash joined
(`str(path.relative_to(repo_root)).replace("\\", "/")`). -/
def relPath (comps : List String) (name : String) : String :=
  String.intercalate "/" (comps ++ [name])

/-! ## The four source adapters -/

/-- The title rule of `load_repo_files_as_prompts` (line 185):
`infer_title_from_markdown(text) or path.stem` — an empty inferred title is
falsy and falls back to the stem. -/
def repoTitle (stem : String) (text : String) : String :=
  match infer_title_from_markdown text with
  | some t => if t = "" then stem else t
  | none => stem

/-- Definition `load_repo_files_as_prompts` from `import_prompts.py` (the generic-file
adapter) over a walked tree. -/
def load_repo_files_as_prompts (repo_name : String) (t : FSTree) : List PromptRow :=
  (iter_repo_text_files t).filterMap (fun pf =>
    let text := pyStrip pf.2.content
    if text = "" then none
    else some
      { title := repoTitle (String.mk (pyStem pf.2.name.data)) text
        body := repoBody text
        source := "repo_file"
        source_repo := some repo_name
        source_path := some (relPath pf.1 pf.2.name) })

/-- One pattern directory for the pattern adapter: its name and the contents
of `system.md` / `user.md` when those files exist. -/
structure PatternDir where
  name : String
  system : Option String
  user : Option String
deriving DecidableEq, Repr

/-- Lexicographic byte/code-point comparison of character lists: this is
`memcmp` order on UTF-8 bytes, the order both Python path sorting and
SQLite text comparison use on the data in this development. -/
def listLe : List Char → List Char → Bool
  | [], _ => true
  | _ :: _, [] => false
  | a :: as, b :: bs =>
    if a.toNat < b.toNat then true
    else if b.toNat < a.toNat then false
    else listLe as bs

/-- String comparison through `listLe`. -/
def strLe (a b : String) : Bool := listLe a.data b.data

/-- Key comparison for `sorted(...)` over paths sharing one parent:
path order is string order of the final component. -/
def nameLeP (a b : PatternDir) : Bool := strLe a.name b.name

/-- Stable insertion used to model Python `sorted` and SQL `ORDER BY`. -/
def insertSorted (le : α → α → Bool) (a : α) : List α → List α
  | [] => [a]
  | b :: l => if le a b then a :: b :: l else b :: insertSorted le a l

/-- Stable insertion sort: equal keys keep their input order, matching
Python's `sorted` (and fixing one deterministic order for SQLite's
unspecified tie order). -/
def sortBy (le : α → α → Bool) (l : List α) : List α :=
  l.foldr (insertSorted le) []

/-- Python `str.replace(pat, rep)` on character lists for a non-empty
pattern: leftmost, non-overlapping, every occurrence; on explicit fuel so
that the recursion is structural (each step consumes at least one
character, so `l.length` fuel is never exhausted early). -/
def replaceAllFuel (pat rep : List Char) : Nat → List Char → List Char
  | 0, l => l
  | fuel + 1, l =>
    match l with
    | [] => []
    | c :: rest =>
      if pat ≠ [] ∧ pat.isPrefixOf (c :: rest)
      then rep ++ replaceAllFuel pat rep fuel ((c :: rest).drop pat.length)
      else c :: replaceAllFuel pat rep fuel rest

/-- Python `str.replace` on strings. -/
def pyReplace (s pat rep : String) : String :=
  String.mk (replaceAllFuel pat.data rep.data s.data.length s.data)

/-- Python `str.endswith` / the `"*.json"` glob test. -/
def strEndsWith (s post : String) : Bool := post.data.isSuffixOf s.data

/-- The composed body of one pattern directory: the labelled `system` and
`user` sections, joined and stripped (lines 133–140 of the source). -/
def patternBody (d : PatternDir) : String :=
  let parts :=
    (match d.system with
     | some s => ["# system\n" ++ pyStrip s ++ "\n"]
     | none => []) ++
    (match d.user with
     | some u => ["# user\n" ++ pyStrip u ++ "\n"]
     | none => [])
  pyStrip (String.intercalate "\n" (parts.filter (fun p => pyStrip p ≠ "")))

/-- Definition `load_fabric_patterns` from `import_prompts.py`: the pattern adapter.
`none` models a missing `patterns_root` (the function returns immediately);
the subdirectories are visited in sorted name order, the body is the
newline-joined labelled sections, and empty bodies are skipped. -/
def load_fabric_patterns (root : Option (List PatternDir)) (origin : String) :
    List PromptRow :=
  match root with
  | none => []
  | some dirs =>
    (sortBy nameLeP dirs).filterMap (fun d =>
      if patternBody d = "" then none
      else some
        { title := d.name
          body := patternBody d
          source := "patterns"
          source_repo := none
          source_path := some (pyReplace (origin ++ "/" ++ d.name) "//" "/") })

/-- One parsed CSV row as `csv.DictReader` hands it over: the `act` and
`prompt` columns (`row.get` yields `None` when the column is missing). -/
structure CsvRow where
  act : Option String
  prompt : Option String
deriving DecidableEq, Repr

/-- Definition `load_awesome_chatgpt_prompts_csv` from `import_prompts.py`: the CSV
adapter.  `none` models a missing `prompts.csv`; rows are 1-indexed by
`enumerate(reader, start=1)` before filtering, and rows with empty trimmed
`act` or `prompt` are dropped. -/
def load_awesome_chatgpt_prompts_csv (rows : Option (List CsvRow)) : List PromptRow :=
  match rows with
  | none => []
  | some rs =>
    (List.enumFrom 1 rs).filterMap (fun ir =>
      let title := pyStrip (ir.2.act.getD "")
      let body := pyStrip (ir.2.prompt.getD "")
      if title = "" || body = "" then none
      else some
        { title := title
          body := body
          source := "repo_csv"
          source_repo := some "awesome-chatgpt-prompts-main"
          source_path := some ("prompts.csv#row=" ++ toString ir.1) })

/-- Key comparison for `sorted(strategies_dir.glob("*.json"))`. -/
def nameLeF (a b : String × String) : Bool := strLe a.1 b.1

/-- Definition `load_strategies` from `import_prompts.py`: the strategy adapter.
`none` models a missing directory; `glob("*.json")` keeps names ending in
`".json"` (pathlib's glob does not special-case dotfiles), sorted; empty
files are dropped. -/
def load_strategies (files : Option (List (String × String))) (origin : String) :
    List PromptRow :=
  match files with
  | none => []
  | some fs =>
    (sortBy nameLeF (fs.filter (fun f => strEndsWith f.1 ".json"))).filterMap (fun f =>
      let text := pyStrip f.2
      if text = "" then none
      else some
        { title := String.mk (pyStem f.1.data)
          body := text
          source := "strategies"
          source_repo := none
          source_path := some (origin ++ "/" ++ f.1) })

/-! ## Query service (`server.py`) -/

/-- Definition `clamp_int` from `server.py`: `None` gives the default, an unparsable
string gives the default (`ValueError` branch), otherwise
`max(min_v, min(max_v, parsed))`. -/
def clamp_int (value : Option String) (default min_v max_v : Int) : Int :=
  match value with
  | none => default
  | some v =>
    match pyParseInt v with
    | none => default
    | some parsed => max min_v (min max_v parsed)

/-- SQL `COALESCE(source_repo, '')`. -/
def coalesce (o : Option String) : String := o.getD ""

/-- SQLite `LIKE`: `%` matches any run, `_` any single character, letters
compare case-insensitively (ASCII folding, SQLite's default). -/
def likeMatch : List Char → List Char → Bool
  | [], [] => true
  | [], _ :: _ => false
  | '%' :: p, t =>
    likeMatch p t ||
      (match t with
       | [] => false
       | _ :: t2 => likeMatch ('%' :: p) t2)
  | '_' :: p, t =>
    (match t with
     | [] => false
     | _ :: t2 => likeMatch p t2)
  | c :: p, t =>
    (match t with
     | [] => false
     | d :: t2 => (Char.toLower c = Char.toLower d) && likeMatch p t2)
termination_by p t => (p.length, t.length)

/-- Test `column LIKE '%…%'` with the query interpolated, as the handler builds
the pattern `f"%{query}%"`. -/
def likeContains (hay needle : String) : Bool :=
  likeMatch ('%' :: (needle.data ++ ['%'])) hay.data

/-- The `WHERE` clause of `_handle_list_prompts`: each filter is added only
when its trimmed request value is non-empty. -/
def listFilter (query source repo : String) (r : StoredPrompt) : Bool :=
  (query == "" || (likeContains r.title query || likeContains r.body query)) &&
  (source == "" || r.source == source) &&
  (repo == "" || coalesce r.source_repo == repo)

/-- Key for `ORDER BY title COLLATE NOCASE ASC`: SQLite's NOCASE collation folds
ASCII letters and compares the folded bytes. -/
def nocaseKey (s : String) : String := String.mk (s.data.map Char.toLower)

/-- Row comparison for the list ordering. -/
def titleNocaseLe (a b : StoredPrompt) : Bool :=
  strLe (nocaseKey a.title) (nocaseKey b.title)

/-- A list-response item: `SELECT id, title, source, source_repo` — the body
is not part of list responses. -/
structure ListItem where
  id : Nat
  title : String
  source : String
  source_repo : Option String
deriving DecidableEq, Repr

/-- Response payload of `_handle_list_prompts`. -/
structure ListPayload where
  items : List ListItem
  total : Nat
  limit : Int
  offset : Int
  q : String
deriving DecidableEq, Repr

/-- Success payload of `_handle_get_prompt`: the full record including body. -/
structure GetPayload where
  id : Nat
  title : String
  body : String
  source : String
  source_repo : Option String
  source_path : Option String
deriving DecidableEq, Repr

/-- One grouped count of `GROUP BY source, COALESCE(source_repo, '')`. -/
structure SourceCount where
  source : String
  repo : String
  count : Nat
deriving DecidableEq, Repr

/-- Payload of `/api/stats`. -/
structure StatsPayload where
  total : Nat
  by_source : List SourceCount
deriving DecidableEq, Repr

/-- A handler outcome: a JSON payload with status 200 or a structured
`{"error": …}` payload with an error status (the extra context fields of
the error payloads — `db_path`, `id` — are not modelled). -/
inductive ApiResult (α : Type) where
  | ok (payload : α)
  | err (status : Nat) (error : String)
deriving DecidableEq, Repr

/-- Grouping keys in first-appearance order (SQLite leaves the pre-`ORDER BY`
group order unspecified; the model fixes first appearance). -/
def groupKeys (db : List StoredPrompt) : List (String × String) :=
  db.foldl (fun ks r =>
    let k := (r.source, coalesce r.source_repo)
    if ks.contains k then ks else ks ++ [k]) []

/-- Descending-count comparison for `ORDER BY n DESC`. -/
def countGe (a b : SourceCount) : Bool := decide (b.count ≤ a.count)

/-- The grouped counts shared by `/api/stats` and `/api/sources`. -/
def groupCounts (db : List StoredPrompt) : List SourceCount :=
  sortBy countGe ((groupKeys db).map (fun k =>
    { source := k.1, repo := k.2
      count := (db.filter (fun r =>
        r.source == k.1 && coalesce r.source_repo == k.2)).length }))

/-- Handler `_handle_stats` from `server.py`; `dbExists` models
`self.cfg.db_path.exists()`. -/
def handle_stats (dbExists : Bool) (db : List StoredPrompt) : ApiResult StatsPayload :=
  if !dbExists then .err 404 "DB not found"
  else .ok { total := db.length, by_source := groupCounts db }

/-- Handler `_handle_sources` from `server.py`. -/
def handle_sources (dbExists : Bool) (db : List StoredPrompt) :
    ApiResult (List SourceCount) :=
  if !dbExists then .err 404 "DB not found"
  else .ok (groupCounts db)

/-- Summary projection of a row for list responses. -/
def summarize (r : StoredPrompt) : ListItem :=
  { id := r.id, title := r.title, source := r.source, source_repo := r.source_repo }

/-- Handler `_handle_list_prompts` from `server.py`.  The five request parameters are
`q`, `source`, `repo`, `limit`, `offset` (absent = `none`).  The SQL is
modelled relationally: `WHERE` = `listFilter`, `ORDER BY title COLLATE
NOCASE ASC` = stable sort on the folded title, `LIMIT ? OFFSET ?` =
`drop`/`take`, and the separate `COUNT(*)` query uses the same `WHERE`
without the pagination parameters. -/
def handle_list_prompts (dbExists : Bool) (db : List StoredPrompt)
    (qp sp rp lp op : Option String) : ApiResult ListPayload :=
  if !dbExists then .err 404 "DB not found"
  else
    let query := pyStrip (qp.getD "")
    let source := pyStrip (sp.getD "")
    let repo := pyStrip (rp.getD "")
    let limit := clamp_int lp 50 1 200
    let offset := clamp_int op 0 0 1000000
    let filtered := db.filter (listFilter query source repo)
    let page := ((sortBy titleNocaseLe filtered).drop offset.toNat).take limit.toNat
    .ok { items := page.map summarize
          total := filtered.length
          limit := limit
          offset := offset
          q := query }

/-- Handler `_handle_get_prompt` from `server.py`: `WHERE id = ?` with `fetchone`,
404 on no row. -/
def handle_get_prompt (dbExists : Bool) (db : List StoredPrompt) (prompt_id : Nat) :
    ApiResult GetPayload :=
  if !dbExists then .err 404 "DB not found"
  else
    match db.find? (fun r => r.id == prompt_id) with
    | none => .err 404 "Not found"
    | some r =>
      .ok { id := r.id, title := r.title, body := r.body, source := r.source
            source_repo := r.source_repo, source_path := r.source_path }

/-! ## Helper lemmas: stable insertion sort -/

theorem mem_insertSorted (le : α → α → Bool) (a x : α) (l : List α) :
    x ∈ insertSorted le a l ↔ x = a ∨ x ∈ l := by
  induction l with
  | nil => simp [insertSorted]
  | cons b l ih =>
    by_cases h : le a b
    · rw [insertSorted, if_pos h]
      simp only [List.mem_cons]
    · rw [insertSorted, if_neg h]
      simp only [List.mem_cons, ih]
      tauto

theorem mem_sortBy (le : α → α → Bool) (x : α) (l : List α) :
    x ∈ sortBy le l ↔ x ∈ l := by
  induction l with
  | nil => simp [sortBy]
  | cons a l ih =>
    show x ∈ insertSorted le a (sortBy le l) ↔ _
    rw [mem_insertSorted]
    simp only [ih, List.mem_cons]

theorem pairwise_insertSorted (le : α → α → Bool)
    (htot : ∀ a b, le a b = true ∨ le b a = true)
    (htrans : ∀ a b c, le a b = true → le b c = true → le a c = true)
    (a : α) (l : List α) (h : l.Pairwise (fun x y => le x y = true)) :
    (insertSorted le a l).Pairwise (fun x y => le x y = true) := by
  induction l with
  | nil => simp [insertSorted]
  | cons b l ih =>
    rcases List.pairwise_cons.mp h with ⟨hb, hl⟩
    by_cases hab : le a b
    · rw [insertSorted, if_pos hab]
      refine List.pairwise_cons.mpr ⟨?_, h⟩
      intro y hy
      rcases List.mem_cons.mp hy with rfl | hy
      · exact hab
      · exact htrans a b y hab (hb y hy)
    · rw [insertSorted, if_neg hab]
      refine List.pairwise_cons.mpr ⟨?_, ih hl⟩
      intro y hy
      rcases (mem_insertSorted le a y l).mp hy with hya | hy
      · rcases htot a b with h1 | h1
        · exact absurd h1 hab
        · rw [hya]
          exact h1
      · exact hb y hy

theorem pairwise_sortBy (le : α → α → Bool)
    (htot : ∀ a b, le a b = true ∨ le b a = true)
    (htrans : ∀ a b c, le a b = true → le b c = true → le a c = true)
    (l : List α) : (sortBy le l).Pairwise (fun x y => le x y = true) := by
  induction l with
  | nil => simp [sortBy]
  | cons a l ih => exact pairwise_insertSorted le htot htrans a (sortBy le l) ih

theorem listLe_total : ∀ a b : List Char, listLe a b = true ∨ listLe b a = true := by
  intro a
  induction a with
  | nil => intro b; exact Or.inl rfl
  | cons x as ih =>
    intro b
    cases b with
    | nil => exact Or.inr rfl
    | cons y bs =>
      by_cases h1 : x.toNat < y.toNat
      · left
        simp [listLe, h1]
      · by_cases h2 : y.toNat < x.toNat
        · right
          simp [listLe, h2]
        · rcases ih bs with h | h
          · left
            simp [listLe, h1, h2, h]
          · right
            simp [listLe, h1, h2, h]

theorem listLe_trans : ∀ a b c : List Char,
    listLe a b = true → listLe b c = true → listLe a c = true := by
  intro a
  induction a with
  | nil => intro b c _ _; rfl
  | cons x as ih =>
    intro b c hab hbc
    cases b with
    | nil => simp [listLe] at hab
    | cons y bs =>
      cases c with
      | nil => simp [listLe] at hbc
      | cons z cs =>
        by_cases h1 : x.toNat < y.toNat
        · by_cases h2 : y.toNat < z.toNat
          · have hxz : x.toNat < z.toNat := by omega
            simp [listLe, hxz]
          · by_cases h3 : z.toNat < y.toNat
            · simp [listLe, h2, h3] at hbc
            · have hxz : x.toNat < z.toNat := by omega
              simp [listLe, hxz]
        · by_cases h4 : y.toNat < x.toNat
          · simp [listLe, h1, h4] at hab
          · have hab2 : listLe as bs = true := by
              simpa [listLe, h1, h4] using hab
            by_cases h2 : y.toNat < z.toNat
            · have hxz : x.toNat < z.toNat := by omega
              simp [listLe, hxz]
            · by_cases h3 : z.toNat < y.toNat
              · simp [listLe, h2, h3] at hbc
              · have hbc2 : listLe bs cs = true := by
                  simpa [listLe, h2, h3] using hbc
                have h5 : ¬x.toNat < z.toNat := by omega
                have h6 : ¬z.toNat < x.toNat := by omega
                simp [listLe, h5, h6]
                exact ih bs cs hab2 hbc2

theorem titleNocaseLe_total (a b : StoredPrompt) :
    titleNocaseLe a b = true ∨ titleNocaseLe b a = true :=
  listLe_total (nocaseKey a.title).data (nocaseKey b.title).data

theorem titleNocaseLe_trans (a b c : StoredPrompt)
    (h1 : titleNocaseLe a b = true) (h2 : titleNocaseLe b c = true) :
    titleNocaseLe a c = true :=
  listLe_trans (nocaseKey a.title).data (nocaseKey b.title).data
    (nocaseKey c.title).data h1 h2

/-! ## Helper lemmas: the deduplicating writer -/

/-- Some stored row already carries this content hash. -/
def hashPresent (db : List StoredPrompt) (h : String) : Prop :=
  ∃ r, r ∈ db ∧ r.body_sha256 = h

theorem insert_noop_of_present (db : List StoredPrompt) (pr : PromptRow) (t : String)
    (h : hashPresent db (sha256_text pr.body)) : insert_prompt db pr t = (false, db) := by
  obtain ⟨r, hr, hh⟩ := h
  have : db.any (fun r => r.body_sha256 = sha256_text pr.body) = true :=
    List.any_eq_true.mpr ⟨r, hr, by simp [hh]⟩
  simp [insert_prompt, this]

theorem insert_appends_of_absent (db : List StoredPrompt) (pr : PromptRow) (t : String)
    (h : ∀ r, r ∈ db → r.body_sha256 ≠ sha256_text pr.body) :
    insert_prompt db pr t = (true, db ++
      [⟨db.length + 1, pr.title, pr.body, pr.source, pr.source_repo,
        pr.source_path, sha256_text pr.body, t⟩]) := by
  have : db.any (fun r => r.body_sha256 = sha256_text pr.body) = false := by
    rw [List.any_eq_false]
    intro r hr
    simp [h r hr]
  simp [insert_prompt, this]

theorem insert_hashPresent_mono (db : List StoredPrompt) (pr : PromptRow)
    (t h : String) (hp : hashPresent db h) :
    hashPresent (insert_prompt db pr t).2 h := by
  obtain ⟨r, hr, hh⟩ := hp
  unfold insert_prompt
  by_cases hc : db.any (fun r => r.body_sha256 = sha256_text pr.body)
  · simp only [hc, if_true]
    exact ⟨r, hr, hh⟩
  · simp only [hc, if_false]
    exact ⟨r, List.mem_append_left _ hr, hh⟩

theorem insert_adds_hash (db : List StoredPrompt) (pr : PromptRow) (t : String) :
    hashPresent (insert_prompt db pr t).2 (sha256_text pr.body) := by
  unfold insert_prompt
  by_cases hc : db.any (fun r => r.body_sha256 = sha256_text pr.body)
  · simp only [hc, if_true]
    obtain ⟨r, hr, hh⟩ := List.any_eq_true.mp hc
    exact ⟨r, hr, by simpa using hh⟩
  · simp only [hc, if_false]
    exact ⟨_, List.mem_append_right _ (List.mem_singleton.mpr rfl), rfl⟩

theorem runIngest_cons (db : List StoredPrompt) (pr : PromptRow)
    (rs : List PromptRow) (t : String) :
    runIngest db (pr :: rs) t = runIngest (insert_prompt db pr t).2 rs t := rfl

theorem runIngest_hashPresent_mono (rs : List PromptRow) :
    ∀ (db : List StoredPrompt) (t h : String), hashPresent db h →
      hashPresent (runIngest db rs t) h := by
  induction rs with
  | nil => intro db t h hp; exact hp
  | cons pr rs ih =>
    intro db t h hp
    rw [runIngest_cons]
    exact ih _ t h (insert_hashPresent_mono db pr t h hp)

theorem runIngest_covers (rs : List PromptRow) :
    ∀ (db : List StoredPrompt) (t : String) (pr : PromptRow), pr ∈ rs →
      hashPresent (runIngest db rs t) (sha256_text pr.body) := by
  induction rs with
  | nil => intro db t pr hm; cases hm
  | cons q rs ih =>
    intro db t pr hm
    rw [runIngest_cons]
    rcases List.mem_cons.mp hm with rfl | hm
    · exact runIngest_hashPresent_mono rs _ t _ (insert_adds_hash db pr t)
    · exact ih _ t pr hm

theorem runIngest_noop (rs : List PromptRow) :
    ∀ (db : List StoredPrompt) (t : String),
      (∀ pr, pr ∈ rs → hashPresent db (sha256_text pr.body)) →
      runIngest db rs t = db := by
  induction rs with
  | nil => intro db t _; rfl
  | cons q rs ih =>
    intro db t hall
    rw [runIngest_cons, insert_noop_of_present db q t (hall q (List.mem_cons_self q rs))]
    exact ih db t (fun pr hm => hall pr (List.mem_cons_of_mem q hm))

/-! ## Claim theorems -/

/-- C1: Deduplicating insert contract.  `insert_prompt` computes
`body_sha256` from the record's body; when a stored row with the same
`body_sha256` exists the insert returns `false` and leaves the store
unchanged; otherwise a new row with all fields is appended and the call
returns `true`; consequently two records with byte-identical bodies inserted
into a store not yet containing that hash leave exactly one row with that
hash, carrying the first record's title/source/body (first writer wins). -/
theorem insert_prompt_dedup_contract :
    (∀ (db : List StoredPrompt) (pr : PromptRow) (t : String),
      hashPresent db (sha256_text pr.body) → insert_prompt db pr t = (false, db)) ∧
    (∀ (db : List StoredPrompt) (pr : PromptRow) (t : String),
      (∀ r, r ∈ db → r.body_sha256 ≠ sha256_text pr.body) →
      insert_prompt db pr t = (true, db ++
        [⟨db.length + 1, pr.title, pr.body, pr.source, pr.source_repo,
          pr.source_path, sha256_text pr.body, t⟩])) ∧
    (∀ (db : List StoredPrompt) (pr1 pr2 : PromptRow) (t1 t2 : String),
      pr1.body = pr2.body →
      (∀ r, r ∈ db → r.body_sha256 ≠ sha256_text pr1.body) →
      (insert_prompt (insert_prompt db pr1 t1).2 pr2 t2).1 = false ∧
      (insert_prompt (insert_prompt db pr1 t1).2 pr2 t2).2 = (insert_prompt db pr1 t1).2 ∧
      (((insert_prompt (insert_prompt db pr1 t1).2 pr2 t2).2.filter
        (fun r => r.body_sha256 == sha256_text pr1.body)).map
          (fun r => (r.title, r.source, r.body))) = [(pr1.title, pr1.source, pr1.body)]) := by
  refine ⟨insert_noop_of_present, insert_appends_of_absent, ?_⟩
  intro db pr1 pr2 t1 t2 hbody habs
  have h1 := insert_appends_of_absent db pr1 t1 habs
  have hpres : hashPresent (insert_prompt db pr1 t1).2 (sha256_text pr2.body) := by
    rw [← hbody]
    exact insert_adds_hash db pr1 t1
  have h2 := insert_noop_of_present (insert_prompt db pr1 t1).2 pr2 t2 hpres
  refine ⟨by rw [h2], by rw [h2], ?_⟩
  rw [h2]
  show ((insert_prompt db pr1 t1).2.filter _).map _ = _
  rw [h1]
  show ((db ++ [_]).filter _).map _ = _
  rw [List.filter_append]
  have hnil : db.filter (fun r => r.body_sha256 == sha256_text pr1.body) = [] := by
    rw [List.filter_eq_nil_iff]
    intro r hr
    simpa using habs r hr
  rw [hnil]
  simp

/-- C1 witness: two records with identical bodies and different
titles/sources into an empty store — the second insert is rejected and
exactly one row with the shared hash remains, carrying the first title. -/
theorem insert_prompt_dedup_contract_witness :
    (insert_prompt (insert_prompt [] ⟨"A", "same body", "patterns", none, none⟩ "t1").2
      ⟨"B", "same body", "repo_file", some "r", some "p"⟩ "t2").1 = false ∧
    (((insert_prompt (insert_prompt [] ⟨"A", "same body", "patterns", none, none⟩ "t1").2
      ⟨"B", "same body", "repo_file", some "r", some "p"⟩ "t2").2.filter
        (fun r => r.body_sha256 == sha256_text "same body")).map
          (fun r => (r.title, r.source, r.body))) = [("A", "patterns", "same body")] := by
  have h := insert_prompt_dedup_contract.2.2 []
    ⟨"A", "same body", "patterns", none, none⟩
    ⟨"B", "same body", "repo_file", some "r", some "p"⟩ "t1" "t2" rfl
    (by intro r hr; cases hr)
  exact ⟨h.1, h.2.2⟩

/-- C2: Full ingestion idempotence.  The adapters are pure functions of the
input tree, so a second run over identical inputs replays the same record
sequence; folding `insert_prompt` over it a second time with no reset
changes nothing: the store is unchanged (hence the row count equals the
count after the first run) and every record of the second run is rejected
as a duplicate. -/
theorem ingestion_idempotent (records : List PromptRow) (db : List StoredPrompt)
    (t1 t2 : String) :
    runIngest (runIngest db records t1) records t2 = runIngest db records t1 ∧
    (runIngest (runIngest db records t1) records t2).length =
      (runIngest db records t1).length ∧
    ∀ pr, pr ∈ records →
      (insert_prompt (runIngest db records t1) pr t2).1 = false := by
  have hcov : ∀ pr, pr ∈ records →
      hashPresent (runIngest db records t1) (sha256_text pr.body) :=
    fun pr hm => runIngest_covers records db t1 pr hm
  have hfix := runIngest_noop records (runIngest db records t1) t2 hcov
  refine ⟨hfix, by rw [hfix], ?_⟩
  intro pr hm
  rw [insert_noop_of_present _ pr t2 (hcov pr hm)]

/-- C2 witness: a concrete two-record run (with a duplicate body inside the
run) re-ingested over itself — the row count is unchanged and the first
record of the replay is rejected. -/
theorem ingestion_idempotent_witness :
    (runIngest (runIngest [] [⟨"A", "b1", "patterns", none, none⟩,
        ⟨"B", "b2", "repo_file", some "r", none⟩] "t1")
      [⟨"A", "b1", "patterns", none, none⟩,
        ⟨"B", "b2", "repo_file", some "r", none⟩] "t2").length =
    (runIngest [] [⟨"A", "b1", "patterns", none, none⟩,
        ⟨"B", "b2", "repo_file", some "r", none⟩] "t1").length ∧
    (insert_prompt (runIngest [] [⟨"A", "b1", "patterns", none, none⟩,
        ⟨"B", "b2", "repo_file", some "r", none⟩] "t1")
      ⟨"A", "b1", "patterns", none, none⟩ "t2").1 = false := by
  have h := ingestion_idempotent
    [⟨"A", "b1", "patterns", none, none⟩, ⟨"B", "b2", "repo_file", some "r", none⟩]
    [] "t1" "t2"
  exact ⟨h.2.1, h.2.2 _ (List.mem_cons_self _ _)⟩

/-- C9: every read operation checks for the store file first and answers a
structured 404 payload when it is missing; Get-by-id on an absent id answers
a structured 404 rather than crashing or returning an empty success. -/
theorem service_not_found_handling :
    (∀ db, handle_stats false db = ApiResult.err 404 "DB not found") ∧
    (∀ db, handle_sources false db = ApiResult.err 404 "DB not found") ∧
    (∀ (db : List StoredPrompt) qp sp rp lp op,
      handle_list_prompts false db qp sp rp lp op = ApiResult.err 404 "DB not found") ∧
    (∀ (db : List StoredPrompt) i,
      handle_get_prompt false db i = ApiResult.err 404 "DB not found") ∧
    (∀ (db : List StoredPrompt) i, (∀ r, r ∈ db → r.id ≠ i) →
      handle_get_prompt true db i = ApiResult.err 404 "Not found") := by
  refine ⟨fun db => rfl, fun db => rfl, fun db qp sp rp lp op => rfl, fun db i => rfl, ?_⟩
  intro db i habs
  have hf : db.find? (fun r => r.id == i) = none := by
    rw [List.find?_eq_none]
    intro r hr
    simpa using habs r hr
  simp [handle_get_prompt, hf]

/-- C9 witness: a store holding only id 1, asked for id 2. -/
theorem service_not_found_handling_witness :
    handle_get_prompt true [⟨1, "T", "B", "patterns", none, none, "h", "t"⟩] 2 =
      ApiResult.err 404 "Not found" :=
  service_not_found_handling.2.2.2.2 [⟨1, "T", "B", "patterns", none, none, "h", "t"⟩] 2
    (by intro r hr; simp at hr; simp [hr])

/-- A store row that carries a repository name, used to refute C4. -/
def exRepoRow : StoredPrompt := ⟨1, "T", "B", "repo_file", some "r", some "p", "h", "t"⟩

/-- C4 counterexample: with one stored row whose `source_repo` is `"r"`, a
List request with `repo=""` returns that row (total 1) although zero rows
have an empty-coalesced repo — an empty repo filter matches all rows, not
the rows with no repo, because `if repo:` skips the clause entirely. -/
theorem list_repo_filter_empty_counterexample :
    handle_list_prompts true [exRepoRow] none none (some "") none none =
      ApiResult.ok { items := [⟨1, "T", "repo_file", some "r"⟩], total := 1,
                     limit := 50, offset := 0, q := "" } ∧
    ([exRepoRow].filter (fun r => coalesce r.source_repo == "")).length = 0 := by
  exact ⟨rfl, rfl⟩

/-- C4 amended: the List repo filter is an exact match on
`COALESCE(source_repo, '')` when the trimmed parameter is non-empty; a repo
parameter that is empty (or whitespace-only) after trimming adds no clause
at all, so it behaves exactly like an absent parameter and matches every
row. -/
theorem list_repo_filter_semantics :
    (∀ (db : List StoredPrompt) qp sp lp op,
      handle_list_prompts true db qp sp (some "") lp op =
        handle_list_prompts true db qp sp none lp op) ∧
    (∀ (db : List StoredPrompt) qp sp rp lp op, pyStrip (rp.getD "") = "" →
      handle_list_prompts true db qp sp rp lp op =
        handle_list_prompts true db qp sp none lp op) ∧
    (∀ (repo : String) (r : StoredPrompt), repo ≠ "" →
      listFilter "" "" repo r = (coalesce r.source_repo == repo)) := by
  refine ⟨?_, ?_, ?_⟩
  · intro db qp sp lp op
    rfl
  · intro db qp sp rp lp op h
    unfold handle_list_prompts
    rw [h]
    rfl
  · intro repo r h
    unfold listFilter
    have : (repo == "") = false := by
      simp [h]
    rw [this]
    simp

/-- C4 amended witness: a whitespace-only repo parameter behaves like an
absent one, and a non-empty repo filter is the coalesced exact match. -/
theorem list_repo_filter_semantics_witness :
    handle_list_prompts true [exRepoRow] none none (some " ") none none =
      handle_list_prompts true [exRepoRow] none none none none none ∧
    listFilter "" "" "r" exRepoRow = (coalesce exRepoRow.source_repo == "r") := by
  refine ⟨list_repo_filter_semantics.2.1 [exRepoRow] none none (some " ") none none rfl, ?_⟩
  exact list_repo_filter_semantics.2.2 "r" exRepoRow (by decide)


/-- The five-row store of the spec's List-query example. -/
def exDb7 : List StoredPrompt :=
  [⟨1, "Banana", "bb", "repo_file", some "r1", some "p1", "h1", "t"⟩,
   ⟨2, "apple", "aa", "patterns", none, some "p2", "h2", "t"⟩,
   ⟨3, "Cherry", "cc", "repo_file", some "r2", some "p3", "h3", "t"⟩,
   ⟨4, "date", "dd", "repo_csv", some "r1", some "p4", "h4", "t"⟩,
   ⟨5, "Elderberry", "ee", "strategies", none, some "p5", "h5", "t"⟩]

/-- The filtered row set of a List request, before pagination. -/
def listFiltered (db : List StoredPrompt) (qp sp rp : Option String) :
    List StoredPrompt :=
  db.filter (listFilter (pyStrip (qp.getD "")) (pyStrip (sp.getD ""))
    (pyStrip (rp.getD "")))

/-- C7: List pagination and ordering.  `limit` is clamped into `[1, 200]`
with default 50 and `offset` into `[0, 1000000]` with default 0; a
non-numeric value falls back to its default instead of erroring; the page
is the `[offset, offset + limit)` window of the filtered rows sorted by
title case-insensitively ascending; and over the titles
`["Banana", "apple", "Cherry", "date", "Elderberry"]` the request
`limit=2, offset=1` returns `["Banana", "Cherry"]` in that order. -/
theorem list_pagination_and_ordering :
    (∀ d lo hi : Int, clamp_int none d lo hi = d) ∧
    (∀ (v : String) (d lo hi : Int), pyParseInt v = none →
      clamp_int (some v) d lo hi = d) ∧
    (∀ (v : String) (n d lo hi : Int), pyParseInt v = some n → lo ≤ hi →
      lo ≤ clamp_int (some v) d lo hi ∧ clamp_int (some v) d lo hi ≤ hi ∧
      (lo ≤ n → n ≤ hi → clamp_int (some v) d lo hi = n)) ∧
    (∀ (db : List StoredPrompt) qp sp rp lp op,
      handle_list_prompts true db qp sp rp lp op = ApiResult.ok
        { items := (((sortBy titleNocaseLe (listFiltered db qp sp rp)).drop
              (clamp_int op 0 0 1000000).toNat).take
              (clamp_int lp 50 1 200).toNat).map summarize
          total := (listFiltered db qp sp rp).length
          limit := clamp_int lp 50 1 200
          offset := clamp_int op 0 0 1000000
          q := pyStrip (qp.getD "") }) ∧
    (∀ (db : List StoredPrompt) qp sp rp lp op L,
      handle_list_prompts true db qp sp rp lp op = ApiResult.ok L →
      L.items.Pairwise (fun a b => strLe (nocaseKey a.title) (nocaseKey b.title) = true)) ∧
    handle_list_prompts true exDb7 none none none (some "2") (some "1") =
      ApiResult.ok
        { items := [⟨1, "Banana", "repo_file", some "r1"⟩,
                    ⟨3, "Cherry", "repo_file", some "r2"⟩],
          total := 5, limit := 2, offset := 1, q := "" } := by
  refine ⟨fun d lo hi => rfl, ?_, ?_, ?_, ?_, by decide⟩
  · intro v d lo hi h
    simp [clamp_int, h]
  · intro v n d lo hi h hle
    simp only [clamp_int, h]
    refine ⟨le_max_left lo _, max_le hle (min_le_left hi n), ?_⟩
    intro h1 h2
    rw [min_eq_right h2, max_eq_right h1]
  · intro db qp sp rp lp op
    rfl
  · intro db qp sp rp lp op L h
    have h4 : handle_list_prompts true db qp sp rp lp op = ApiResult.ok
        { items := (((sortBy titleNocaseLe (listFiltered db qp sp rp)).drop
              (clamp_int op 0 0 1000000).toNat).take
              (clamp_int lp 50 1 200).toNat).map summarize
          total := (listFiltered db qp sp rp).length
          limit := clamp_int lp 50 1 200
          offset := clamp_int op 0 0 1000000
          q := pyStrip (qp.getD "") } := rfl
    rw [h4] at h
    injection h with h
    subst h
    show (((sortBy titleNocaseLe (listFiltered db qp sp rp)).drop _).take _).map
      summarize |>.Pairwise _
    rw [List.pairwise_map]
    have hp : (sortBy titleNocaseLe (listFiltered db qp sp rp)).Pairwise
        (fun a b => titleNocaseLe a b = true) :=
      pairwise_sortBy titleNocaseLe titleNocaseLe_total titleNocaseLe_trans _
    have hsub : ((((sortBy titleNocaseLe (listFiltered db qp sp rp)).drop
        (clamp_int op 0 0 1000000).toNat).take (clamp_int lp 50 1 200).toNat)).Sublist
        (sortBy titleNocaseLe (listFiltered db qp sp rp)) :=
      (List.take_sublist _ _).trans (List.drop_sublist _ _)
    refine (hp.sublist hsub).imp ?_
    intro a b hab
    exact hab

/-- C7 witness: the non-numeric value `"abc"` falls back to the default, and
a numeric value inside the range is taken as is. -/
theorem list_pagination_and_ordering_witness :
    clamp_int (some "abc") 50 1 200 = 50 ∧ clamp_int (some "7") 50 1 200 = 7 := by
  refine ⟨list_pagination_and_ordering.2.1 "abc" 50 1 200 rfl, ?_⟩
  have h := (list_pagination_and_ordering.2.2.1 "7" 7 50 1 200 rfl (by decide)).2.2
  exact h (by decide) (by decide)

/-- C8: the `total` of a List response is the number of rows matching the
active filters over the whole store — identical for any two pagination
windows — and every returned item is the body-free summary of some row
matching the filters (`ListItem` carries only id, title, source,
source_repo). -/
theorem list_filtered_total :
    (∀ (db : List StoredPrompt) qp sp rp lp op L,
      handle_list_prompts true db qp sp rp lp op = ApiResult.ok L →
      L.total = (listFiltered db qp sp rp).length) ∧
    (∀ (db : List StoredPrompt) qp sp rp l1 o1 l2 o2 L1 L2,
      handle_list_prompts true db qp sp rp l1 o1 = ApiResult.ok L1 →
      handle_list_prompts true db qp sp rp l2 o2 = ApiResult.ok L2 →
      L1.total = L2.total) ∧
    (∀ (db : List StoredPrompt) qp sp rp lp op L,
      handle_list_prompts true db qp sp rp lp op = ApiResult.ok L →
      ∀ it, it ∈ L.items → ∃ r, r ∈ db ∧
        listFilter (pyStrip (qp.getD "")) (pyStrip (sp.getD ""))
          (pyStrip (rp.getD "")) r = true ∧ it = summarize r) := by
  have hshape : ∀ (db : List StoredPrompt) qp sp rp lp op L,
      handle_list_prompts true db qp sp rp lp op = ApiResult.ok L →
      L = { items := (((sortBy titleNocaseLe (listFiltered db qp sp rp)).drop
              (clamp_int op 0 0 1000000).toNat).take
              (clamp_int lp 50 1 200).toNat).map summarize
            total := (listFiltered db qp sp rp).length
            limit := clamp_int lp 50 1 200
            offset := clamp_int op 0 0 1000000
            q := pyStrip (qp.getD "") } := by
    intro db qp sp rp lp op L h
    have h4 : handle_list_prompts true db qp sp rp lp op = ApiResult.ok
        { items := (((sortBy titleNocaseLe (listFiltered db qp sp rp)).drop
              (clamp_int op 0 0 1000000).toNat).take
              (clamp_int lp 50 1 200).toNat).map summarize
          total := (listFiltered db qp sp rp).length
          limit := clamp_int lp 50 1 200
          offset := clamp_int op 0 0 1000000
          q := pyStrip (qp.getD "") } := rfl
    rw [h4] at h
    injection h with h
    exact h.symm
  refine ⟨?_, ?_, ?_⟩
  · intro db qp sp rp lp op L h
    rw [hshape db qp sp rp lp op L h]
  · intro db qp sp rp l1 o1 l2 o2 L1 L2 h1 h2
    rw [hshape db qp sp rp l1 o1 L1 h1, hshape db qp sp rp l2 o2 L2 h2]
  · intro db qp sp rp lp op L h it hit
    rw [hshape db qp sp rp lp op L h] at hit
    obtain ⟨r, hr, hrit⟩ := List.mem_map.mp hit
    have hsub : r ∈ sortBy titleNocaseLe (listFiltered db qp sp rp) :=
      ((List.take_sublist _ _).trans (List.drop_sublist _ _)).mem hr
    have hmem : r ∈ listFiltered db qp sp rp := (mem_sortBy _ r _).mp hsub
    obtain ⟨hdb, hflt⟩ := List.mem_filter.mp hmem
    exact ⟨r, hdb, hflt, hrit.symm⟩

/-- C8 witness: over the five-row example store with the repo filter `r1`,
every pagination window reports total 2, and each returned item is the
summary of a matching row. -/
theorem list_filtered_total_witness :
    (handle_list_prompts true exDb7 none none (some "r1") (some "1") none =
      ApiResult.ok { items := [⟨1, "Banana", "repo_file", some "r1"⟩],
                     total := 2, limit := 1, offset := 0, q := "" }) ∧
    ∃ L, handle_list_prompts true exDb7 none none (some "r1") (some "1") none =
      ApiResult.ok L ∧ L.total = (listFiltered exDb7 none none (some "r1")).length := by
  refine ⟨by decide, ?_⟩
  refine ⟨_, rfl, ?_⟩
  exact list_filtered_total.1 exDb7 none none (some "r1") (some "1") none _ rfl

/-- C5: title inference consults exactly the first non-blank line — it is a
heading (1–6 `#` then whitespace then text) or nothing; the heading text is
trimmed and stripped of surrounding backtick/asterisk markup; a non-heading
first line falls back to the filename stem; a heading after the first
non-blank line is never detected.  Includes the spec's two examples. -/
theorem title_first_nonblank_only :
    (∀ text : String, infer_title_from_markdown text =
      (firstNonBlankLine text).bind (fun l => (headingOf l).map String.mk)) ∧
    infer_title_from_markdown "\n\n# Hello World\n\nbody text" = some "Hello World" ∧
    (∀ stem : String, repoTitle stem "no heading here\nmore text" = stem) ∧
    infer_title_from_markdown "intro line\n# Heading later" = none := by
  refine ⟨infer_title_eq_first_nonblank, by decide, ?_, by decide⟩
  intro stem
  unfold repoTitle
  rw [show infer_title_from_markdown "no heading here\nmore text" = none from by decide]

/-- Helper: Python `max(blocks, key=len)` returns a member of maximal
length, and the first such member — everything before it in the list is
strictly shorter. -/
theorem maxByLen_spec (bs : List (List Char)) : ∀ b : List Char,
    (∀ x ∈ b :: bs, x.length ≤ (maxByLen b bs).length) ∧
    ∃ pre post, b :: bs = pre ++ maxByLen b bs :: post ∧
      ∀ x ∈ pre, x.length < (maxByLen b bs).length := by
  induction bs with
  | nil =>
    intro b
    refine ⟨?_, [], [], rfl, by simp⟩
    intro x hx
    rcases List.mem_cons.mp hx with rfl | hx
    · exact le_refl _
    · cases hx
  | cons c bs ih =>
    intro b
    have hstep : maxByLen b (c :: bs) =
        maxByLen (if b.length < c.length then c else b) bs := rfl
    by_cases h : b.length < c.length
    · rw [hstep, if_pos h]
      obtain ⟨hmax, pre, post, hsplit, hpre⟩ := ih c
      refine ⟨?_, b :: pre, post, ?_, ?_⟩
      · intro x hx
        rcases List.mem_cons.mp hx with rfl | hx
        · exact le_of_lt (lt_of_lt_of_le h (hmax c (List.mem_cons_self c bs)))
        · exact hmax x hx
      · rw [show b :: c :: bs = b :: (c :: bs) from rfl, hsplit]
        rfl
      · intro x hx
        rcases List.mem_cons.mp hx with rfl | hx
        · exact lt_of_lt_of_le h (hmax c (List.mem_cons_self c bs))
        · exact hpre x hx
    · rw [hstep, if_neg h]
      obtain ⟨hmax, pre, post, hsplit, hpre⟩ := ih b
      have hcb : c.length ≤ b.length := le_of_not_lt h
      have hbmax : b.length ≤ (maxByLen b bs).length := hmax b (List.mem_cons_self b bs)
      cases pre with
      | nil =>
        simp only [List.nil_append] at hsplit
        have hb : b = maxByLen b bs := (List.cons.injEq _ _ _ _ ▸ hsplit).1
        refine ⟨?_, [], c :: bs, ?_, by simp⟩
        · intro x hx
          rcases List.mem_cons.mp hx with rfl | hx
          · exact hbmax
          · rcases List.mem_cons.mp hx with rfl | hx
            · exact le_trans hcb hbmax
            · exact hmax x (List.mem_cons_of_mem b hx)
        · rw [← hb]
          rfl
      | cons p pre2 =>
        have hbp : b = p := (List.cons.injEq _ _ _ _ ▸ hsplit).1
        have hbs : bs = pre2 ++ maxByLen b bs :: post :=
          (List.cons.injEq _ _ _ _ ▸ hsplit).2
        have hblt : b.length < (maxByLen b bs).length := by
          have hp := hpre p (List.mem_cons_self p pre2)
          rwa [← hbp] at hp
        refine ⟨?_, b :: c :: pre2, post, ?_, ?_⟩
        · intro x hx
          rcases List.mem_cons.mp hx with rfl | hx
          · exact hbmax
          · rcases List.mem_cons.mp hx with rfl | hx
            · exact le_trans hcb hbmax
            · exact hmax x (List.mem_cons_of_mem b hx)
        · rw [show b :: c :: pre2 ++ maxByLen b bs :: post =
            b :: c :: (pre2 ++ maxByLen b bs :: post) from rfl, ← hbs]
        · intro x hx
          rcases List.mem_cons.mp hx with rfl | hx
          · exact hblt
          · rcases List.mem_cons.mp hx with rfl | hx
            · exact lt_of_le_of_lt hcb hblt
            · exact hpre x (List.mem_cons_of_mem p hx)

/-- A file text with a 10-character and a 200-character fenced block. -/
def exTwoBlocks : String :=
  "x\n```\n" ++ String.mk (List.replicate 10 'b') ++ "\n```\ny\n```\n" ++
    String.mk (List.replicate 200 'a') ++ "\n```\nz"

/-- A file text whose only fenced block is 20 characters long. -/
def exOneSmallBlock : String :=
  "pre\n```\n" ++ String.mk (List.replicate 20 'c') ++ "\n```\nmore"

set_option maxRecDepth 20000 in
/-- C6: among all fenced blocks the longest is selected, the first on ties
(everything before the chosen block is strictly shorter); a selected block
of trimmed length at least 40 becomes the body (trimmed), otherwise the
body is the whole trimmed file text.  Includes the spec's two examples:
10- and 200-character blocks select the 200-character one; a lone
20-character block falls below the threshold and yields the whole file. -/
theorem fenced_block_selection :
    (∀ text : String, fencedBlocks text = [] →
      extract_best_fenced_block text = none) ∧
    (∀ (text : String) (b : List Char) (bs : List (List Char)),
      fencedBlocks text = b :: bs →
      extract_best_fenced_block text = some (String.mk (pyStripL (maxByLen b bs))) ∧
      maxByLen b bs ∈ b :: bs ∧
      (∀ x ∈ b :: bs, x.length ≤ (maxByLen b bs).length) ∧
      ∃ pre post, b :: bs = pre ++ maxByLen b bs :: post ∧
        ∀ x ∈ pre, x.length < (maxByLen b bs).length) ∧
    (∀ (text f : String), extract_best_fenced_block text = some f →
      40 ≤ f.length → repoBody text = pyStrip f) ∧
    (∀ (text f : String), extract_best_fenced_block text = some f →
      f.length < 40 → repoBody text = text) ∧
    (∀ text : String, extract_best_fenced_block text = none →
      repoBody text = text) ∧
    repoBody exTwoBlocks = String.mk (List.replicate 200 'a') ∧
    repoBody exOneSmallBlock = exOneSmallBlock := by
  refine ⟨?_, ?_, ?_, ?_, ?_, by decide, by decide⟩
  · intro text h
    unfold extract_best_fenced_block
    rw [h]
  · intro text b bs h
    obtain ⟨hmax, pre, post, hsplit, hpre⟩ := maxByLen_spec bs b
    refine ⟨?_, ?_, hmax, pre, post, hsplit, hpre⟩
    · unfold extract_best_fenced_block
      rw [h]
    · rw [hsplit]
      exact List.mem_append_right pre (List.mem_cons_self _ _)
  · intro text f hf h40
    unfold repoBody
    rw [hf]
    have hne : f ≠ "" := by
      intro he
      rw [he] at h40
      simp [String.length] at h40
    show (if f ≠ "" ∧ 40 ≤ f.length then pyStrip f else text) = pyStrip f
    rw [if_pos ⟨hne, h40⟩]
  · intro text f hf h40
    unfold repoBody
    rw [hf]
    show (if f ≠ "" ∧ 40 ≤ f.length then pyStrip f else text) = text
    rw [if_neg]
    intro hc
    omega
  · intro text h
    unfold repoBody
    rw [h]

/-- C6 witness: the small-block example, pushed through the general
threshold clause of the theorem. -/
theorem fenced_block_selection_witness :
    repoBody exOneSmallBlock = exOneSmallBlock ∧
    repoBody "no fences at all" = "no fences at all" := by
  constructor
  · exact fenced_block_selection.2.2.2.1 exOneSmallBlock
      (String.mk (List.replicate 20 'c')) (by decide) (by decide)
  · exact fenced_block_selection.2.2.2.2.1 "no fences at all" (by decide)

/-! ## Helper lemmas: acquisition and adapters -/

theorem keepFile_iff (f : FileEnt) : keepFile f = true ↔
    ¬ f.name ∈ SKIP_FILE_NAMES ∧ extOf f.name ∈ TEXT_EXTS ∧
    ∃ n, f.size = some n ∧ n ≤ MAX_FILE_BYTES := by
  unfold keepFile
  cases hs : f.size with
  | none => simp
  | some n =>
    simp [hs]
    tauto

/-- Every entry the walk yields passed the file filter, and no component of
its directory path is a pruned name (proved by the mutual tree recursor). -/
theorem iter_mem_spec : ∀ t : FSTree, ∀ e ∈ iter_repo_text_files t,
    keepFile e.2 = true ∧ ∀ d ∈ e.1, ¬ d ∈ SKIP_DIR_NAMES :=
  @FSTree.rec
    (fun t => ∀ e ∈ iter_repo_text_files t,
      keepFile e.2 = true ∧ ∀ d ∈ e.1, ¬ d ∈ SKIP_DIR_NAMES)
    (fun ds => ∀ e ∈ iterDirs ds,
      keepFile e.2 = true ∧ ∀ d ∈ e.1, ¬ d ∈ SKIP_DIR_NAMES)
    (fun files dirs ih => by
      intro e he
      rw [show iter_repo_text_files (FSTree.node files dirs) =
        (files.filter keepFile).map (fun f => ([], f)) ++ iterDirs dirs from rfl] at he
      rcases List.mem_append.mp he with hf | hd
      · obtain ⟨f, hf1, hf2⟩ := List.mem_map.mp hf
        rw [← hf2]
        exact ⟨(List.mem_filter.mp hf1).2, by simp⟩
      · exact ih e hd)
    (by
      intro e he
      rw [show iterDirs FSDirs.nil = [] from rfl] at he
      cases he)
    (fun name t rest iht ihrest => by
      intro e he
      rw [show iterDirs (FSDirs.cons name t rest) =
        (if SKIP_DIR_NAMES.contains name then []
         else (iter_repo_text_files t).map (fun pf => (name :: pf.1, pf.2))) ++
          iterDirs rest from rfl] at he
      rcases List.mem_append.mp he with h1 | h2
      · by_cases hs : SKIP_DIR_NAMES.contains name
        · rw [if_pos hs] at h1
          cases h1
        · rw [if_neg hs] at h1
          obtain ⟨pf, hpf, hpe⟩ := List.mem_map.mp h1
          obtain ⟨hk, hcomps⟩ := iht pf hpf
          rw [← hpe]
          refine ⟨hk, ?_⟩
          intro d hd
          rcases List.mem_cons.mp hd with rfl | hd
          · simpa using hs
          · exact hcomps d hd
      · exact ihrest e h2)

/-- A walked file has a non-empty name (its lowered suffix is one of the
allowed extensions, and the empty name has no suffix). -/
theorem keep_name_ne_nil (f : FileEnt) (h : extOf f.name ∈ TEXT_EXTS) :
    f.name.data ≠ [] := by
  intro hc
  rw [show extOf f.name = String.mk ((pySuffix f.name.data).map Char.toLower)
    from rfl, hc] at h
  revert h
  decide

/-- The output of `extract_best_fenced_block` is already stripped. -/
theorem extract_stripped (s f : String)
    (h : extract_best_fenced_block s = some f) : pyStrip f = f := by
  unfold extract_best_fenced_block at h
  cases hb : fencedBlocks s with
  | nil => rw [hb] at h; cases h
  | cons b bs =>
    rw [hb] at h
    injection h with h
    rw [← h]
    exact pyStrip_mk_stripped _

/-- The generic-file body is non-empty after trimming whenever the file
text is (as in the adapter, the incoming text is already stripped). -/
theorem pyStrip_repoBody (text : String) (h : pyStrip text = text)
    (hne : text ≠ "") : pyStrip (repoBody text) ≠ "" := by
  unfold repoBody
  cases hx : extract_best_fenced_block text with
  | none =>
    rw [h]
    exact hne
  | some f =>
    show pyStrip (if f ≠ "" ∧ 40 ≤ f.length then pyStrip f else text) ≠ ""
    by_cases hc : f ≠ "" ∧ 40 ≤ f.length
    · rw [if_pos hc, pyStrip_idem]
      rw [extract_stripped text f hx]
      exact hc.1
    · rw [if_neg hc, h]
      exact hne

/-- A name ending in `".json"` is non-empty. -/
theorem json_name_ne_nil (s : String) (h : strEndsWith s ".json" = true) :
    s.data ≠ [] := by
  intro hc
  rw [show strEndsWith s ".json" = (".json".data.isSuffixOf s.data) from rfl, hc] at h
  revert h
  decide

/-- C10: the acquisition walk prunes blocklisted directory names entirely
(no yielded path travels through one), skips blocklisted file names, skips
extensions (lowercased) outside the allowed set, skips files above the byte
ceiling, and treats a failed size-stat as a skip; consequently no such file
reaches the generic-file adapter's output. -/
theorem acquisition_filtering :
    (∀ t : FSTree, ∀ e ∈ iter_repo_text_files t,
      ¬ e.2.name ∈ SKIP_FILE_NAMES ∧ extOf e.2.name ∈ TEXT_EXTS ∧
      (∃ n, e.2.size = some n ∧ n ≤ MAX_FILE_BYTES) ∧
      ∀ d ∈ e.1, ¬ d ∈ SKIP_DIR_NAMES) ∧
    (∀ (repo : String) (t : FSTree), ∀ pr ∈ load_repo_files_as_prompts repo t,
      ∃ p f, (p, f) ∈ iter_repo_text_files t ∧
        pr.source_path = some (relPath p f.name) ∧
        ¬ f.name ∈ SKIP_FILE_NAMES ∧ extOf f.name ∈ TEXT_EXTS ∧
        ∃ n, f.size = some n ∧ n ≤ MAX_FILE_BYTES) := by
  have hmain : ∀ t : FSTree, ∀ e ∈ iter_repo_text_files t,
      ¬ e.2.name ∈ SKIP_FILE_NAMES ∧ extOf e.2.name ∈ TEXT_EXTS ∧
      (∃ n, e.2.size = some n ∧ n ≤ MAX_FILE_BYTES) ∧
      ∀ d ∈ e.1, ¬ d ∈ SKIP_DIR_NAMES := by
    intro t e he
    obtain ⟨hk, hd⟩ := iter_mem_spec t e he
    obtain ⟨h1, h2, h3⟩ := (keepFile_iff e.2).mp hk
    exact ⟨h1, h2, h3, hd⟩
  refine ⟨hmain, ?_⟩
  intro repo t pr hpr
  unfold load_repo_files_as_prompts at hpr
  obtain ⟨pf, hpf, hF⟩ := List.mem_filterMap.mp hpr
  by_cases ht : pyStrip pf.2.content = ""
  · simp only [ht, if_true] at hF
    cases hF
  · simp only [ht, if_false] at hF
    obtain ⟨h1, h2, h3, _⟩ := hmain t pf hpf
    refine ⟨pf.1, pf.2, hpf, ?_, h1, h2, h3⟩
    injection hF with hF
    rw [← hF]

/-- C10 witness: a tree with one kept file, one oversized file, one
blocklisted lockfile, one stat-failed file, and a pruned directory — the
walk yields exactly the kept file, which satisfies every filter. -/
theorem acquisition_filtering_witness :
    (iter_repo_text_files (FSTree.node
        [⟨"a.md", some 10, "hi"⟩,
         ⟨"big.md", some 999999, "x"⟩,
         ⟨"yarn.lock", some 5, "x"⟩,
         ⟨"nostat.md", none, "x"⟩]
        (FSDirs.cons "node_modules" (FSTree.node [⟨"b.md", some 1, "y"⟩] FSDirs.nil)
          FSDirs.nil))).map (fun e => e.2.name) = ["a.md"] ∧
    (¬ ("a.md" : String) ∈ SKIP_FILE_NAMES ∧ extOf "a.md" ∈ TEXT_EXTS ∧
      (∃ n, (some 10 : Option Nat) = some n ∧ n ≤ MAX_FILE_BYTES) ∧
      ∀ d ∈ ([] : List String), ¬ d ∈ SKIP_DIR_NAMES) := by
  constructor
  · decide
  · exact acquisition_filtering.1 (FSTree.node
        [⟨"a.md", some 10, "hi"⟩,
         ⟨"big.md", some 999999, "x"⟩,
         ⟨"yarn.lock", some 5, "x"⟩,
         ⟨"nostat.md", none, "x"⟩]
        (FSDirs.cons "node_modules" (FSTree.node [⟨"b.md", some 1, "y"⟩] FSDirs.nil)
          FSDirs.nil)) ([], ⟨"a.md", some 10, "hi"⟩) (by decide)

/-- A non-empty character list makes a non-empty string. -/
theorem mk_ne_empty (l : List Char) (h : l ≠ []) : String.mk l ≠ "" :=
  fun hc => h (congrArg String.data hc)

/-- The tree used to refute the C3 title invariant: a normally named
markdown file whose heading text is a backtick-wrapped space. -/
def exBadTitleTree : FSTree :=
  .node [⟨"x.md", some 100, "# ` `\nsome body content"⟩] .nil

/-- C3 counterexample: the generic-file adapter emits a record whose title
is whitespace-only (empty after trimming): a file `x.md` whose first line
is the heading `# ` + backtick-space-backtick has the inferred title `" "`,
which is truthy in Python and is not replaced by the stem, and no later
check drops the record. -/
theorem adapters_nonempty_counterexample :
    (load_repo_files_as_prompts "r" exBadTitleTree).map
      (fun pr => (pr.title, pyStrip pr.title)) = [(" ", "")] ∧
    (load_repo_files_as_prompts "r" exBadTitleTree).map
      (fun pr => pyStrip pr.body) = ["# ` `\nsome body content"] := by
  exact ⟨by decide, by decide⟩

/-- C3 amended: every record any of the four adapters emits has a body that
is non-empty after trimming, and a non-empty title — but the title may be
whitespace-only (the counterexample), so "non-empty after trimming" holds
for bodies in general and for titles only of the CSV adapter; pattern-dir
titles are the directory names (non-empty on any real file system, taken
as a hypothesis), generic-file and strategy titles are non-empty because a
kept file's name carries an allowed extension. -/
theorem adapters_emit_nonempty :
    (∀ (dirs : List PatternDir) (origin : String),
      (∀ d ∈ dirs, d.name ≠ "") →
      ∀ pr ∈ load_fabric_patterns (some dirs) origin,
        pr.title ≠ "" ∧ pyStrip pr.body ≠ "") ∧
    (∀ rows : List CsvRow, ∀ pr ∈ load_awesome_chatgpt_prompts_csv (some rows),
      pyStrip pr.title ≠ "" ∧ pyStrip pr.body ≠ "") ∧
    (∀ (repo : String) (t : FSTree), ∀ pr ∈ load_repo_files_as_prompts repo t,
      pr.title ≠ "" ∧ pyStrip pr.body ≠ "") ∧
    (∀ (files : List (String × String)) (origin : String),
      ∀ pr ∈ load_strategies (some files) origin,
        pr.title ≠ "" ∧ pyStrip pr.body ≠ "") := by
  refine ⟨?_, ?_, ?_, ?_⟩
  · intro dirs origin hnames pr hpr
    unfold load_fabric_patterns at hpr
    obtain ⟨d, hd, hF⟩ := List.mem_filterMap.mp hpr
    have hdm : d ∈ dirs := (mem_sortBy nameLeP d dirs).mp hd
    by_cases hb : patternBody d = ""
    · rw [if_pos hb] at hF
      cases hF
    · rw [if_neg hb] at hF
      injection hF with hF
      rw [← hF]
      refine ⟨hnames d hdm, ?_⟩
      have hidem : pyStrip (patternBody d) = patternBody d := by
        unfold patternBody
        exact pyStrip_idem _
      show pyStrip (patternBody d) ≠ ""
      rw [hidem]
      exact hb
  · intro rows pr hpr
    unfold load_awesome_chatgpt_prompts_csv at hpr
    obtain ⟨ir, _, hF⟩ := List.mem_filterMap.mp hpr
    by_cases ht : pyStrip (ir.2.act.getD "") = ""
    · simp only [ht] at hF
      simp at hF
    · by_cases hb : pyStrip (ir.2.prompt.getD "") = ""
      · simp only [hb] at hF
        simp at hF
      · simp only [ht, hb] at hF
        injection hF with hF
        rw [← hF]
        constructor
        · show pyStrip (pyStrip (ir.2.act.getD "")) ≠ ""
          rw [pyStrip_idem]
          exact ht
        · show pyStrip (pyStrip (ir.2.prompt.getD "")) ≠ ""
          rw [pyStrip_idem]
          exact hb
  · intro repo t pr hpr
    unfold load_repo_files_as_prompts at hpr
    obtain ⟨pf, hpf, hF⟩ := List.mem_filterMap.mp hpr
    by_cases ht : pyStrip pf.2.content = ""
    · simp only [ht, if_true] at hF
      cases hF
    · simp only [ht, if_false] at hF
      injection hF with hF
      rw [← hF]
      have hext : extOf pf.2.name ∈ TEXT_EXTS :=
        ((keepFile_iff pf.2).mp (iter_mem_spec t pf hpf).1).2.1
      have hname : pf.2.name.data ≠ [] := keep_name_ne_nil pf.2 hext
      have hstem : String.mk (pyStem pf.2.name.data) ≠ "" :=
        mk_ne_empty _ (pyStem_ne_nil _ hname)
      constructor
      · show repoTitle (String.mk (pyStem pf.2.name.data)) (pyStrip pf.2.content) ≠ ""
        unfold repoTitle
        cases hi : infer_title_from_markdown (pyStrip pf.2.content) with
        | none => exact hstem
        | some u =>
          show (if u = "" then String.mk (pyStem pf.2.name.data) else u) ≠ ""
          by_cases hu : u = ""
          · rw [if_pos hu]
            exact hstem
          · rw [if_neg hu]
            exact hu
      · exact pyStrip_repoBody _ (pyStrip_idem _) ht
  · intro files origin pr hpr
    unfold load_strategies at hpr
    obtain ⟨f, hf, hF⟩ := List.mem_filterMap.mp hpr
    have hjson : strEndsWith f.1 ".json" = true :=
      (List.mem_filter.mp ((mem_sortBy nameLeF f _).mp hf)).2
    by_cases ht : pyStrip f.2 = ""
    · simp only [ht, if_true] at hF
      cases hF
    · simp only [ht, if_false] at hF
      injection hF with hF
      rw [← hF]
      refine ⟨mk_ne_empty _ (pyStem_ne_nil _ (json_name_ne_nil f.1 hjson)), ?_⟩
      show pyStrip (pyStrip f.2) ≠ ""
      rw [pyStrip_idem]
      exact ht

/-- A well-formed generic-file record used as the C3 witness instance. -/
def exGoodRow : PromptRow :=
  ⟨"Good", "# Good\nhello", "repo_file", some "r", some "doc.md"⟩

/-- C3 amended witness: a generic-file record from a well-formed markdown
file satisfies both conclusions. -/
theorem adapters_emit_nonempty_witness :
    exGoodRow.title ≠ "" ∧ pyStrip exGoodRow.body ≠ "" :=
  adapters_emit_nonempty.2.2.1 "r" (.node [⟨"doc.md", some 10, "# Good\nhello"⟩] .nil)
    exGoodRow (by decide)
